import Mathlib

/-!
Verification of the Tesla fallback manager (`TeslaFallbackManager` in the
repository's智能降级 module) against its natural-language specification.

The development shallowly embeds the selector pipeline
(`checkMethodRequirements`, `selectBestMethod`, `optimizeMethodsByNetwork`,
`optimizeMethodsByHistory`), the metrics bookkeeping (`recordSuccess`,
`recordFailure`, `updateMetrics`) and the executor (`executeWithFallback`).
Numbers are modelled with `ℚ` (the source uses JS numbers; every constant
involved is exactly representable), JS objects holding per-strategy success
rates with functions `String → Option ℚ`, and `Array.prototype.sort` with a
stable insertion sort over the comparator's induced total preorder
(ECMAScript requires a stable sort, and for a consistent comparator every
stable sort produces the same output).
-/

set_option maxRecDepth 4000

namespace TeslaFallback

/-! ### Stable sort, modelling `Array.prototype.sort(comparator)`

`le a b` stands for `comparator(a, b) <= 0`. -/

def sortInsert (le : α → α → Bool) (x : α) : List α → List α
  | [] => [x]
  | y :: ys => if le x y then x :: y :: ys else y :: sortInsert le x ys

def arraySort (le : α → α → Bool) : List α → List α
  | [] => []
  | x :: xs => sortInsert le x (arraySort le xs)

/-! ### Data model -/

/-- Capability tags appearing in the catalog's `requirements` lists. -/
inductive Requirement where
  | webrtc_support
  | websocket_support
  | proxy_server
  | ffmpeg_support
deriving DecidableEq, Repr

/-- One entry of `this.methods` (the strategy catalog fixed in the
constructor).  The `description` string is omitted (display only). -/
structure Method where
  name : String
  priority : ℕ
  timeout : ℚ
  retries : ℕ
  requirements : List Requirement
deriving DecidableEq, Repr

/-- The device capability snapshot (`this.deviceInfo`) restricted to the
fields `checkMethodRequirements` can consult. -/
structure Caps where
  webrtc_support : Bool
  websocket_support : Bool
  proxy_server : Bool
  ffmpeg_support : Bool
deriving DecidableEq, Repr

/-- Result of `getNetworkSpeedCategory`. -/
inductive NetSpeed where
  | slow
  | medium
  | fast
  | unknown
deriving DecidableEq, Repr

def webrtcMethod : Method :=
  { name := "webrtc", priority := 1, timeout := 10000, retries := 2,
    requirements := [Requirement.webrtc_support, Requirement.websocket_support] }

def proxyMethod : Method :=
  { name := "proxy", priority := 2, timeout := 15000, retries := 3,
    requirements := [Requirement.proxy_server] }

def transcodeMethod : Method :=
  { name := "transcode", priority := 3, timeout := 30000, retries := 2,
    requirements := [Requirement.proxy_server, Requirement.ffmpeg_support] }

def directMethod : Method :=
  { name := "direct", priority := 4, timeout := 20000, retries := 1,
    requirements := [] }

/-- `this.methods`, in registration order. -/
def methods : List Method :=
  [webrtcMethod, proxyMethod, transcodeMethod, directMethod]

/-! ### Capability filtering (`checkMethodRequirements`) -/

/-- One iteration of the `switch` in `checkMethodRequirements`: the
`webrtc_support` and `websocket_support` cases return `false` when the
capability is missing; the `proxy_server` and `ffmpeg_support` cases fall
through without any check (the source comments them as unimplemented:
"暂时返回true，实际应用中需要ping代理服务器"). -/
def capOK (caps : Caps) : Requirement → Bool
  | Requirement.webrtc_support => caps.webrtc_support
  | Requirement.websocket_support => caps.websocket_support
  | Requirement.proxy_server => true
  | Requirement.ffmpeg_support => true

/-- `checkMethodRequirements(method)`: false iff some requirement's checked
case fails. -/
def checkMethodRequirements (caps : Caps) (m : Method) : Bool :=
  m.requirements.all (capOK caps)

/-! ### Selector (`selectBestMethod` pipeline; spec name `selectOrder`) -/

/-- The position of a name in the fixed `lightweightOrder` list
`['direct', 'proxy', 'transcode', 'webrtc']` used by the slow-network
comparator (`indexOf`; every catalog name is present, so JS's `-1` for an
absent name is unreachable). -/
def lightIdx (n : String) : ℕ :=
  if n = "direct" then 0
  else if n = "proxy" then 1
  else if n = "transcode" then 2
  else if n = "webrtc" then 3
  else 4

/-- Per-method adjustment of `optimizeMethodsByNetwork`: slow doubles the
timeout and adds a retry, medium multiplies the timeout by 1.5, fast by 0.8,
and any other category leaves the copy unchanged.  The source builds a copy
(`{ ...method }`); catalog entries are not mutated. -/
def adjustMethod (sp : NetSpeed) (m : Method) : Method :=
  match sp with
  | NetSpeed.slow => { m with timeout := m.timeout * 2, retries := m.retries + 1 }
  | NetSpeed.medium => { m with timeout := m.timeout * (3 / 2) }
  | NetSpeed.fast => { m with timeout := m.timeout * (4 / 5) }
  | NetSpeed.unknown => m

/-- The comparator of `optimizeMethodsByNetwork`'s `.sort`: under `slow` it
compares `lightweightOrder` indices, otherwise priorities. -/
def networkCmp (sp : NetSpeed) (a b : Method) : Bool :=
  match sp with
  | NetSpeed.slow => decide (lightIdx a.name ≤ lightIdx b.name)
  | _ => decide (a.priority ≤ b.priority)

/-- `optimizeMethodsByNetwork(methods)`.  `none` models
`this.networkInfo == null`, where the function returns its input
unchanged. -/
def optimizeMethodsByNetwork (net : Option NetSpeed) (ms : List Method) : List Method :=
  match net with
  | none => ms
  | some sp => arraySort (networkCmp sp) (ms.map (adjustMethod sp))

/-- The rate `this.metrics.successRate[name] || 0.5` read by
`optimizeMethodsByHistory`: the JS `||` makes both an absent entry and a
recorded rate of exactly `0` fall back to `0.5`. -/
def effectiveRate (sr : String → Option ℚ) (n : String) : ℚ :=
  match sr n with
  | none => 1 / 2
  | some r => if r = 0 then 1 / 2 else r

/-- The score computed inside `optimizeMethodsByHistory`'s comparator:
`(successRate * 0.7) + ((5 - priority) * 0.3)`. -/
def score (sr : String → Option ℚ) (m : Method) : ℚ :=
  effectiveRate sr m.name * (7 / 10) + (5 - (m.priority : ℚ)) * (3 / 10)

/-- Comparator `(a, b) => bScore - aScore` of `optimizeMethodsByHistory`,
as the predicate `comparator(a,b) <= 0`. -/
def historyCmp (sr : String → Option ℚ) (a b : Method) : Bool :=
  decide (score sr b ≤ score sr a)

/-- `optimizeMethodsByHistory(methods)`: sort descending by `score`. -/
def optimizeMethodsByHistory (sr : String → Option ℚ) (ms : List Method) : List Method :=
  arraySort (historyCmp sr) ms

/-- Comparator `(a, b) => a.priority - b.priority`. -/
def priCmp (a b : Method) : Bool :=
  decide (a.priority ≤ b.priority)

/-- `this.methods.filter(m => m.available).sort((a,b) => a.priority - b.priority)`
from `selectBestMethod`, with `available` as computed by
`detectMethodAvailability` from `checkMethodRequirements`. -/
def availableMethods (caps : Caps) : List Method :=
  arraySort priCmp (methods.filter fun m => checkMethodRequirements caps m)

/-- The ordered list `finalMethods` computed by `selectBestMethod` (the
spec's `Selector.selectOrder`): capability filter, priority sort, network
optimization, then the history re-sort. -/
def selectOrder (caps : Caps) (net : Option NetSpeed) (sr : String → Option ℚ) :
    List Method :=
  optimizeMethodsByHistory sr (optimizeMethodsByNetwork net (availableMethods caps))

/-- `selectBestMethod`: the head of `finalMethods`; `none` models the
`'没有可用的播放方案'` throw on an empty filter result. -/
def selectBestMethod (caps : Caps) (net : Option NetSpeed)
    (sr : String → Option ℚ) : Option Method :=
  (selectOrder caps net sr).head?

/-! ### Metrics bookkeeping (`recordSuccess`, `recordFailure`, `updateMetrics`)

Wall-clock `timestamp` fields (`Date.now()`) are not modelled; the measured
attempt duration is passed in as a parameter. -/

/-- An entry of `this.metrics.connectionTime`. -/
structure ConnRecord where
  method : String
  time : ℚ
deriving DecidableEq, Repr

/-- An entry of `this.attemptHistory` as pushed by `recordFailure`. -/
structure AttemptRecord where
  method : String
  success : Bool
  error : String
  time : ℚ
deriving DecidableEq, Repr

/-- `this.metrics` restricted to the fields the manager ever writes or
reads (`firstFrameTime` and `bandwidthUsage` are initialized and never
touched).  `successRate` models the JS object as a partial map. -/
structure Metrics where
  connectionTime : List ConnRecord
  errorRate : ℚ
  successRate : String → Option ℚ

/-- The manager's mutable state relevant to metrics. -/
structure FallbackState where
  metrics : Metrics
  attemptHistory : List AttemptRecord

/-- An empty success-rate table (`this.metrics.successRate = {}`). -/
def noRates : String → Option ℚ := fun _ => none

/-- The constructor state: empty histories, `errorRate: 0`,
`successRate: {}`. -/
def initState : FallbackState :=
  { metrics := { connectionTime := [], errorRate := 0, successRate := noRates },
    attemptHistory := [] }

/-- The rate read after the guard
`if (!this.metrics.successRate[method.name]) { ... = 0.5 }`: an absent
entry, and a stored rate of exactly `0` (JS falsy), both count as `0.5`. -/
def currentRate (sr : String → Option ℚ) (n : String) : ℚ :=
  match sr n with
  | none => 1 / 2
  | some r => if r = 0 then 1 / 2 else r

/-- The error-rate computation of `updateMetrics`: failures among the last
20 history entries (`slice(-20)`) divided by their count, `0` for an empty
window. -/
def computeErrorRate (h : List AttemptRecord) : ℚ :=
  let recentAttempts := h.drop (h.length - 20)
  if recentAttempts.length = 0 then 0
  else ((recentAttempts.countP fun r => !r.success : ℕ) : ℚ) / (recentAttempts.length : ℚ)

/-- `updateMetrics()`: recompute `this.metrics.errorRate` from the attempt
history. -/
def updateMetrics (st : FallbackState) : FallbackState :=
  { st with metrics := { st.metrics with errorRate := computeErrorRate st.attemptHistory } }

/-- `recordSuccess(method, time)`: bump the success rate by `0.1` capped at
`1`, push a connection-time record (bounded to 100 via `shift()`), then
`updateMetrics()`. -/
def recordSuccess (m : Method) (time : ℚ) (st : FallbackState) : FallbackState :=
  let newRate := min 1 (currentRate st.metrics.successRate m.name + 1 / 10)
  let sr := fun n => if n = m.name then some newRate else st.metrics.successRate n
  let ct := st.metrics.connectionTime ++ [{ method := m.name, time := time }]
  let ct := if 100 < ct.length then ct.tail else ct
  updateMetrics
    { st with metrics := { st.metrics with successRate := sr, connectionTime := ct } }

/-- `recordFailure(method, error, time)`: drop the success rate by `0.1`
floored at `0`, push a failed `AttemptRecord` (bounded to 50 via
`shift()`), then `updateMetrics()`. -/
def recordFailure (m : Method) (err : String) (time : ℚ) (st : FallbackState) :
    FallbackState :=
  let newRate := max 0 (currentRate st.metrics.successRate m.name - 1 / 10)
  let sr := fun n => if n = m.name then some newRate else st.metrics.successRate n
  let h := st.attemptHistory ++
    [{ method := m.name, success := false, error := err, time := time }]
  let h := if 50 < h.length then h.tail else h
  updateMetrics
    { metrics := { st.metrics with successRate := sr }, attemptHistory := h }

/-- One recorded outcome, for reasoning about arbitrary interleavings of
`recordSuccess` and `recordFailure` calls. -/
inductive MetricsEvent where
  | succ (m : Method) (t : ℚ)
  | fail (m : Method) (e : String) (t : ℚ)

def applyEvent (st : FallbackState) : MetricsEvent → FallbackState
  | MetricsEvent.succ m t => recordSuccess m t st
  | MetricsEvent.fail m e t => recordFailure m e t st

/-- The metrics state after a sequence of recorded attempts, from the
constructor state. -/
def runEvents (evs : List MetricsEvent) : FallbackState :=
  evs.foldl applyEvent initState

/-! ### Executor (`executeWithFallback`)

The caller-supplied `playFunction` is modelled by its observable behaviour
per strategy and attempt index: when its promise settles (`arrival`, in ms
since the attempt started) and with what (`Except.ok` fulfilment or
`Except.error` rejection message).  `Promise.race` with the
`setTimeout(..., method.timeout)` timer resolves to whichever side settles
first, and only that single resolution is ever observed (a promise settles
at most once). -/

/-- Observable behaviour of one invocation of `playFunction`. -/
structure AttemptBehaviour where
  arrival : ℚ
  result : Except String ℕ

/-- `await Promise.race([playPromise, timeoutPromise])`: the operation's
own settlement wins iff it arrives before the `method.timeout` timer
fires; otherwise the attempt sees the `'播放超时'` rejection. -/
def raceOutcome (timeout : ℚ) (a : AttemptBehaviour) : Except String ℕ :=
  if a.arrival < timeout then a.result else Except.error "播放超时"

/-- Comparator of the `.sort` building `methodsToTry`: the selected method
first, everything else by priority. -/
def selCmp (sel : String) (a b : Method) : Bool :=
  if a.name = sel then true
  else if b.name = sel then false
  else decide (a.priority ≤ b.priority)

/-- The list `methodsToTry` built by `executeWithFallback` from
`this.methods` — the ORIGINAL catalog records, not the adjusted copies made
during selection. -/
def methodsToTry (caps : Caps) (sel : String) : List Method :=
  arraySort (selCmp sel) (methods.filter fun m => checkMethodRequirements caps m)

/-- Errors `executeWithFallback` can surface:
`noAvailable` is the `'没有可用的播放方案'` throw from `selectBestMethod`;
`allFailed` is the final `'所有播放方案都失败了: …'` throw carrying only the
last error's message; `referenceError` is the uncaught `ReferenceError`
raised inside the `catch` block (see `attemptLoop`). -/
inductive ExecError where
  | noAvailable
  | referenceError
  | allFailed (msg : String)
deriving DecidableEq, Repr

/-- Result of running the per-strategy retry loop for one strategy. -/
inductive AttemptStep where
  | done (v : ℕ) (st : FallbackState) (tr : List (String × ℚ))
  | thrown (st : FallbackState) (tr : List (String × ℚ))
  | exhausted (st : FallbackState) (lastErr : Option String) (tr : List (String × ℚ))

def AttemptStep.trace : AttemptStep → List (String × ℚ)
  | AttemptStep.done _ _ tr => tr
  | AttemptStep.thrown _ tr => tr
  | AttemptStep.exhausted _ _ tr => tr

/-- The inner `for (let attempt = 0; attempt < method.retries; attempt++)`
loop.  The `try` block races the operation against `method.timeout` and on
success records the attempt and returns the result.  The `catch` block hits
the source's slip: `attemptStartTime` is a `const` scoped to the `try`
block, so evaluating `performance.now() - attemptStartTime` there throws a
`ReferenceError` which aborts the whole `executeWithFallback` call — the
`recordFailure` call, the `onMethodFailed` callback and the backoff/retry
code below that line are unreachable on any failed attempt (hence the
recursive exhaustion branch is reached only with a zero retry budget). -/
def attemptLoop (op : ℕ → AttemptBehaviour) (m : Method) :
    ℕ → ℕ → FallbackState → Option String → List (String × ℚ) → AttemptStep
  | 0, _, st, lastErr, tr => AttemptStep.exhausted st lastErr tr
  | _ + 1, attempt, st, _, tr =>
    let a := op attempt
    let tr := tr ++ [(m.name, m.timeout)]
    match raceOutcome m.timeout a with
    | Except.ok v => AttemptStep.done v (recordSuccess m a.arrival st) tr
    | Except.error _ => AttemptStep.thrown st tr

/-- Outcome of `executeWithFallback`, together with the metrics state it
leaves behind and the trace of attempts it made — each trace entry is the
strategy name and the timeout value its `Promise.race` used. -/
structure ExecOutput where
  result : Except ExecError ℕ
  state : FallbackState
  trace : List (String × ℚ)

/-- The outer `for (const method of methodsToTry)` loop; when it ends, the
aggregated `'所有播放方案都失败了: …'` error is thrown with the last error's
message (`'未知错误'` when there was none). -/
def methodLoop (op : String → ℕ → AttemptBehaviour) :
    List Method → FallbackState → Option String → List (String × ℚ) → ExecOutput
  | [], st, lastErr, tr =>
    { result := Except.error (ExecError.allFailed (lastErr.getD "未知错误")),
      state := st, trace := tr }
  | m :: rest, st, lastErr, tr =>
    match attemptLoop (op m.name) m m.retries 0 st lastErr tr with
    | AttemptStep.done v st' tr' => { result := Except.ok v, state := st', trace := tr' }
    | AttemptStep.thrown st' tr' =>
      { result := Except.error ExecError.referenceError, state := st', trace := tr' }
    | AttemptStep.exhausted st' lastErr' tr' => methodLoop op rest st' lastErr' tr'

/-- `executeWithFallback(videoUrl, playFunction)`: select the best method
(using the live `this.metrics.successRate`), build `methodsToTry` from the
original catalog (the per-method loop reads `method.timeout` and
`method.retries` from those records) and run the fallback loops. -/
def executeWithFallback (caps : Caps) (net : Option NetSpeed)
    (op : String → ℕ → AttemptBehaviour) (st : FallbackState) : ExecOutput :=
  match selectBestMethod caps net st.metrics.successRate with
  | none => { result := Except.error ExecError.noAvailable, state := st, trace := [] }
  | some sel => methodLoop op (methodsToTry caps sel.name) st none []

/-! ### Concrete inputs used by the claims -/

def allCaps : Caps :=
  { webrtc_support := true, websocket_support := true,
    proxy_server := true, ffmpeg_support := true }

/-- Capability set with WebRTC support absent. -/
def capsNoWebrtc : Caps :=
  { webrtc_support := false, websocket_support := true,
    proxy_server := true, ffmpeg_support := true }

/-- Capability set with the proxy server unavailable. -/
def capsNoProxy : Caps :=
  { webrtc_support := true, websocket_support := true,
    proxy_server := false, ffmpeg_support := true }

/-- Success-rate table assigning `0.5` to every strategy. -/
def halfRates : String → Option ℚ := fun _ => some (1 / 2)

/-- Success-rate table with a perfect score for `direct` and every other
strategy unseen. -/
def directOneRates : String → Option ℚ :=
  fun n => if n = "direct" then some 1 else none

/-- Operation whose webrtc attempts reject immediately while every other
strategy's attempts fulfil immediately with `42`. -/
def opWebrtcFails : String → ℕ → AttemptBehaviour :=
  fun name _ =>
    if name = "webrtc" then { arrival := 0, result := Except.error "boom" }
    else { arrival := 0, result := Except.ok 42 }

/-- Operation fulfilling every attempt immediately with `7`. -/
def opAllOk : String → ℕ → AttemptBehaviour :=
  fun _ _ => { arrival := 3, result := Except.ok 7 }

/-- Operation rejecting every attempt immediately. -/
def opAllFail : String → ℕ → AttemptBehaviour :=
  fun _ _ => { arrival := 0, result := Except.error "fail" }

/-! ### Spec-side selector, for the refinement comparison of claim C5 -/

/-- Modelled from the spec's words (§4.2 step 2), for comparison against
the code's `score`: `score = 0.7*successRate + 0.3*priorityScore` with
`priorityScore = (maxPriorityValue - priority) / maxPriorityValue`, taking
`maxPriorityValue = 5` (the code's constant), and successRate defaulting to
`0.5` only when unseen. -/
def specScore (sr : String → Option ℚ) (m : Method) : ℚ :=
  ((sr m.name).getD (1 / 2)) * (7 / 10) + ((5 - (m.priority : ℚ)) / 5) * (3 / 10)

/-- Descending comparison by `specScore`. -/
def specCmp (sr : String → Option ℚ) (a b : Method) : Bool :=
  decide (specScore sr b ≤ specScore sr a)

/-- The spec's step-3 ordering: stable sort descending by `specScore`
(ties by input order). -/
def specSelectOrder (sr : String → Option ℚ) (ms : List Method) : List Method :=
  arraySort (specCmp sr) ms

/-! ### Helper lemmas about the stable sort -/

theorem sortInsert_perm (le : α → α → Bool) (x : α) (l : List α) :
    (sortInsert le x l).Perm (x :: l) := by
  induction l with
  | nil => simp [sortInsert]
  | cons y ys ih =>
    by_cases h : le x y = true
    · simp [sortInsert, h]
    · simp only [sortInsert, h, if_false]
      exact ((ih.cons y).trans (List.Perm.swap x y ys))

theorem arraySort_perm (le : α → α → Bool) (l : List α) :
    (arraySort le l).Perm l := by
  induction l with
  | nil => simp [arraySort]
  | cons x xs ih =>
    exact (sortInsert_perm le x (arraySort le xs)).trans (ih.cons x)

theorem mem_arraySort (le : α → α → Bool) (l : List α) (a : α) :
    a ∈ arraySort le l ↔ a ∈ l :=
  (arraySort_perm le l).mem_iff

theorem sortInsert_pairwise (le : α → α → Bool)
    (htot : ∀ a b, le a b = true ∨ le b a = true)
    (htrans : ∀ a b c, le a b = true → le b c = true → le a c = true)
    (x : α) (l : List α) (hl : l.Pairwise fun a b => le a b = true) :
    (sortInsert le x l).Pairwise fun a b => le a b = true := by
  induction l with
  | nil => simp [sortInsert]
  | cons y ys ih =>
    rw [List.pairwise_cons] at hl
    obtain ⟨hy, hys⟩ := hl
    by_cases h : le x y = true
    · rw [show sortInsert le x (y :: ys) = x :: y :: ys by
        simp [sortInsert, h]]
      refine List.Pairwise.cons ?_ (List.Pairwise.cons hy hys)
      intro z hz
      rcases List.mem_cons.mp hz with rfl | hz'
      · exact h
      · exact htrans x y z h (hy z hz')
    · rw [show sortInsert le x (y :: ys) = y :: sortInsert le x ys by
        simp [sortInsert, h]]
      refine List.Pairwise.cons ?_ (ih hys)
      intro z hz
      have hz' : z ∈ x :: ys := (sortInsert_perm le x ys).mem_iff.mp hz
      rcases List.mem_cons.mp hz' with rfl | hz''
      · rcases htot z y with h' | h'
        · exact absurd h' h
        · exact h'
      · exact hy z hz''

theorem arraySort_pairwise (le : α → α → Bool)
    (htot : ∀ a b, le a b = true ∨ le b a = true)
    (htrans : ∀ a b c, le a b = true → le b c = true → le a c = true)
    (l : List α) :
    (arraySort le l).Pairwise fun a b => le a b = true := by
  induction l with
  | nil => simp [arraySort]
  | cons x xs ih => exact sortInsert_pairwise le htot htrans x _ ih

/-! ### Helper lemmas about the selector pipeline -/

theorem adjustMethod_name (sp : NetSpeed) (m : Method) :
    (adjustMethod sp m).name = m.name := by
  cases sp <;> rfl

theorem optimizeMethodsByNetwork_names_perm (net : Option NetSpeed) (ms : List Method) :
    ((optimizeMethodsByNetwork net ms).map Method.name).Perm (ms.map Method.name) := by
  cases net with
  | none => exact List.Perm.refl _
  | some sp =>
    have h1 := (arraySort_perm (networkCmp sp) (ms.map (adjustMethod sp))).map Method.name
    have h2 : (ms.map (adjustMethod sp)).map Method.name = ms.map Method.name := by
      rw [List.map_map]
      exact List.map_congr_left fun m _ => adjustMethod_name sp m
    simpa [optimizeMethodsByNetwork, h2] using h1

theorem selectOrder_names_perm (caps : Caps) (net : Option NetSpeed)
    (sr : String → Option ℚ) :
    ((selectOrder caps net sr).map Method.name).Perm
      ((methods.filter fun m => checkMethodRequirements caps m).map Method.name) := by
  have h1 := (arraySort_perm (historyCmp sr)
    (optimizeMethodsByNetwork net (availableMethods caps))).map Method.name
  have h2 := optimizeMethodsByNetwork_names_perm net (availableMethods caps)
  have h3 := (arraySort_perm priCmp
    (methods.filter fun m => checkMethodRequirements caps m)).map Method.name
  exact ((h1.trans h2).trans (by simpa [availableMethods] using h3))

theorem availableMethods_names_perm (caps : Caps) :
    ((availableMethods caps).map Method.name).Perm
      ((methods.filter fun m => checkMethodRequirements caps m).map Method.name) :=
  (arraySort_perm priCmp _).map Method.name

/-- Catalog names are unique: a catalog entry is determined by its name. -/
theorem methods_name_inj (a b : Method) (ha : a ∈ methods) (hb : b ∈ methods)
    (h : a.name = b.name) : a = b := by
  fin_cases ha <;> fin_cases hb <;> simp_all [methods, webrtcMethod, proxyMethod,
    transcodeMethod, directMethod]

/-! ### Helper lemmas about the metrics state -/

theorem currentRate_bounds (sr : String → Option ℚ)
    (hsr : ∀ n r, sr n = some r → 0 ≤ r ∧ r ≤ 1) (n : String) :
    0 ≤ currentRate sr n ∧ currentRate sr n ≤ 1 := by
  unfold currentRate
  cases h : sr n with
  | none => norm_num
  | some r =>
    by_cases hr : r = 0
    · simp [hr]; norm_num
    · simp only [hr, if_false]
      exact hsr n r h

/-- Success-rate entries stay in `[0, 1]` across any single recorded
event. -/
theorem applyEvent_rate_bounds (st : FallbackState) (ev : MetricsEvent)
    (hst : ∀ n r, st.metrics.successRate n = some r → 0 ≤ r ∧ r ≤ 1) :
    ∀ n r, (applyEvent st ev).metrics.successRate n = some r → 0 ≤ r ∧ r ≤ 1 := by
  cases ev with
  | succ m t =>
    intro n r h
    simp only [applyEvent, recordSuccess, updateMetrics] at h
    by_cases hn : n = m.name
    · simp only [hn, if_pos rfl] at h
      obtain ⟨hc0, hc1⟩ := currentRate_bounds st.metrics.successRate hst m.name
      have : r = min 1 (currentRate st.metrics.successRate m.name + 1 / 10) :=
        (Option.some_injective ℚ h).symm
      constructor
      · rw [this]; exact le_min (by norm_num) (by linarith)
      · rw [this]; exact min_le_left _ _
    · simp only [if_neg hn] at h
      exact hst n r h
  | fail m e t =>
    intro n r h
    simp only [applyEvent, recordFailure, updateMetrics] at h
    by_cases hn : n = m.name
    · simp only [hn, if_pos rfl] at h
      obtain ⟨hc0, hc1⟩ := currentRate_bounds st.metrics.successRate hst m.name
      have : r = max 0 (currentRate st.metrics.successRate m.name - 1 / 10) :=
        (Option.some_injective ℚ h).symm
      constructor
      · rw [this]; exact le_max_left _ _
      · rw [this]; exact max_le (by norm_num) (by linarith)
    · simp only [if_neg hn] at h
      exact hst n r h

theorem foldl_rate_bounds (evs : List MetricsEvent) (st : FallbackState)
    (hst : ∀ n r, st.metrics.successRate n = some r → 0 ≤ r ∧ r ≤ 1) :
    ∀ n r, (evs.foldl applyEvent st).metrics.successRate n = some r → 0 ≤ r ∧ r ≤ 1 := by
  induction evs generalizing st with
  | nil => exact hst
  | cons ev evs ih =>
    exact ih (applyEvent st ev) (applyEvent_rate_bounds st ev hst)

/-- The error rate computed over an all-failure history is `1` when the
history is non-empty (and `0` otherwise). -/
theorem computeErrorRate_allFalse (h : List AttemptRecord)
    (hall : ∀ r ∈ h, r.success = false) :
    computeErrorRate h = if h = [] then 0 else 1 := by
  by_cases hh : h = []
  · subst hh; simp [computeErrorRate]
  · rw [if_neg hh]
    have hlen : 0 < h.length := List.length_pos.mpr hh
    have hdroplen : (h.drop (h.length - 20)).length = h.length - (h.length - 20) :=
      List.length_drop _ _
    have hpos : 0 < (h.drop (h.length - 20)).length := by omega
    have hcount : ((h.drop (h.length - 20)).countP fun r => !r.success) =
        (h.drop (h.length - 20)).length := by
      rw [List.countP_eq_length]
      intro r hr
      have : r ∈ h := List.drop_subset _ _ hr
      simp [hall r this]
    unfold computeErrorRate
    simp only [hcount, if_neg (Nat.pos_iff_ne_zero.mp hpos)]
    rw [div_self]
    exact Nat.cast_ne_zero.mpr (Nat.pos_iff_ne_zero.mp hpos)

/-- Everything `recordFailure` pushes is a failure record, and the error
rate tracks it: invariant preserved by any event. -/
theorem applyEvent_hist_inv (st : FallbackState) (ev : MetricsEvent)
    (hst : ∀ r ∈ st.attemptHistory, r.success = false) :
    (∀ r ∈ (applyEvent st ev).attemptHistory, r.success = false) ∧
      (applyEvent st ev).metrics.errorRate =
        (if (applyEvent st ev).attemptHistory = [] then 0 else 1) := by
  cases ev with
  | succ m t =>
    have hhist : (applyEvent st (MetricsEvent.succ m t)).attemptHistory =
        st.attemptHistory := rfl
    refine ⟨by rw [hhist]; exact hst, ?_⟩
    rw [hhist]
    exact computeErrorRate_allFalse st.attemptHistory hst
  | fail m e t =>
    have hall : ∀ r ∈ (applyEvent st (MetricsEvent.fail m e t)).attemptHistory,
        r.success = false := by
      intro r hr
      simp only [applyEvent, recordFailure, updateMetrics] at hr
      rcases Classical.em
        (50 < (st.attemptHistory ++
          [({ method := m.name, success := false, error := e, time := t } :
            AttemptRecord)]).length) with
        hlong | hshort
      · rw [if_pos hlong] at hr
        have := List.tail_subset _ hr
        rcases List.mem_append.mp this with h1 | h2
        · exact hst r h1
        · simp at h2; rw [h2]
      · rw [if_neg hshort] at hr
        rcases List.mem_append.mp hr with h1 | h2
        · exact hst r h1
        · simp at h2; rw [h2]
    refine ⟨hall, ?_⟩
    have herr : (applyEvent st (MetricsEvent.fail m e t)).metrics.errorRate =
        computeErrorRate (applyEvent st (MetricsEvent.fail m e t)).attemptHistory := rfl
    rw [herr]
    exact computeErrorRate_allFalse _ hall

theorem foldl_hist_inv (evs : List MetricsEvent) (st : FallbackState)
    (hst : ∀ r ∈ st.attemptHistory, r.success = false)
    (herr : st.metrics.errorRate = (if st.attemptHistory = [] then 0 else 1)) :
    (∀ r ∈ (evs.foldl applyEvent st).attemptHistory, r.success = false) ∧
      (evs.foldl applyEvent st).metrics.errorRate =
        (if (evs.foldl applyEvent st).attemptHistory = [] then 0 else 1) := by
  induction evs generalizing st with
  | nil => exact ⟨hst, herr⟩
  | cons ev evs ih =>
    obtain ⟨h1, h2⟩ := applyEvent_hist_inv st ev hst
    exact ih (applyEvent st ev) h1 h2

/-! ### Helper lemmas about the executor trace -/

theorem attemptLoop_trace_sub (op : ℕ → AttemptBehaviour) (m : Method)
    (k attempt : ℕ) (st : FallbackState) (lastErr : Option String)
    (tr : List (String × ℚ)) :
    ∃ s, (attemptLoop op m k attempt st lastErr tr).trace = tr ++ s ∧
      ∀ e ∈ s, e = (m.name, m.timeout) := by
  cases k with
  | zero => exact ⟨[], by simp [attemptLoop, AttemptStep.trace], by simp⟩
  | succ k =>
    refine ⟨[(m.name, m.timeout)], ?_, by simp⟩
    cases h : raceOutcome m.timeout (op attempt) with
    | ok v => simp [attemptLoop, h, AttemptStep.trace]
    | error e => simp [attemptLoop, h, AttemptStep.trace]

theorem methodLoop_trace_sub (op : String → ℕ → AttemptBehaviour)
    (ms : List Method) (st : FallbackState) (lastErr : Option String)
    (tr : List (String × ℚ)) :
    ∃ s, (methodLoop op ms st lastErr tr).trace = tr ++ s ∧
      ∀ e ∈ s, ∃ m, m ∈ ms ∧ e = (m.name, m.timeout) := by
  induction ms generalizing st lastErr tr with
  | nil => exact ⟨[], by simp [methodLoop], by simp⟩
  | cons m rest ih =>
    obtain ⟨s₀, hs₀, hs₀e⟩ :=
      attemptLoop_trace_sub (op m.name) m m.retries 0 st lastErr tr
    cases hstep : attemptLoop (op m.name) m m.retries 0 st lastErr tr with
    | done v st' tr' =>
      rw [hstep] at hs₀
      refine ⟨s₀, ?_, ?_⟩
      · simp only [methodLoop, hstep]
        exact hs₀
      · intro e he
        exact ⟨m, List.mem_cons_self m rest, hs₀e e he⟩
    | thrown st' tr' =>
      rw [hstep] at hs₀
      refine ⟨s₀, ?_, ?_⟩
      · simp only [methodLoop, hstep]
        exact hs₀
      · intro e he
        exact ⟨m, List.mem_cons_self m rest, hs₀e e he⟩
    | exhausted st' lastErr' tr' =>
      rw [hstep] at hs₀
      simp only [AttemptStep.trace] at hs₀
      obtain ⟨s₁, hs₁, hs₁e⟩ := ih st' lastErr' tr'
      refine ⟨s₀ ++ s₁, ?_, ?_⟩
      · simp only [methodLoop, hstep]
        rw [hs₁, hs₀, List.append_assoc]
      · intro e he
        rcases List.mem_append.mp he with h0 | h1
        · exact ⟨m, List.mem_cons_self m rest, hs₀e e h0⟩
        · obtain ⟨m', hm', he'⟩ := hs₁e e h1
          exact ⟨m', List.mem_cons_of_mem m hm', he'⟩

theorem methodsToTry_subset (caps : Caps) (sel : String) (m : Method)
    (hm : m ∈ methodsToTry caps sel) : m ∈ methods := by
  have := (mem_arraySort (selCmp sel)
    (methods.filter fun m => checkMethodRequirements caps m) m).mp hm
  exact List.mem_of_mem_filter this

/-! ### Claims -/

/-- C1 (counterexample): under `slow` network with all strategies available
and no recorded success rates (one concrete assignment of successRate
values), `selectOrder`'s output order is NOT the lightweight-first override
list `[direct, proxy, transcode, webrtc]` — refuting the claim that the
override takes precedence over the score-based order. -/
theorem C1_counterexample :
    (selectOrder allCaps (some NetSpeed.slow) noRates).map Method.name ≠
      ["direct", "proxy", "transcode", "webrtc"] :=
  of_decide_eq_true (by with_unfolding_all rfl)

/-- C1 (amended): under `slow` network the lightweight-first override is
applied inside `optimizeMethodsByNetwork` (whose output is indeed
`[direct, proxy, transcode, webrtc]`), but `selectBestMethod` then feeds
that list through `optimizeMethodsByHistory`, whose score-based re-sort
supersedes the override: with no recorded success rates the final
`selectOrder` output is the score order `[webrtc, proxy, transcode,
direct]`. -/
theorem C1_amended :
    ((optimizeMethodsByNetwork (some NetSpeed.slow) (availableMethods allCaps)).map
        Method.name = ["direct", "proxy", "transcode", "webrtc"]) ∧
    (selectOrder allCaps (some NetSpeed.slow) noRates).map Method.name =
      ["webrtc", "proxy", "transcode", "direct"] :=
  ⟨by with_unfolding_all rfl, by with_unfolding_all rfl⟩

/-- C2 (code bug): an individual attempt failure is NOT recovered locally —
with every strategy available and the first attempt of the first strategy
failing, `executeWithFallback` escapes with a `ReferenceError` (the `catch`
block reads the `try`-scoped `attemptStartTime`), not with a successful
result nor an `AggregateFailure`/`NoAvailableStrategy`; no retry and no
fallback happens and no failure is recorded (the state is untouched). -/
theorem C2_theorem :
    (executeWithFallback allCaps (some NetSpeed.fast) opWebrtcFails initState).result =
      Except.error ExecError.referenceError ∧
    (executeWithFallback allCaps (some NetSpeed.fast) opWebrtcFails initState).state =
      initState :=
  ⟨by with_unfolding_all rfl, by with_unfolding_all rfl⟩

/-- C3 (counterexample): the per-strategy successRate update is not the EMA
`new = old*(1-alpha) + outcome*alpha` with alpha 0.1 — from the initial 0.5
one recorded success yields `0.6` (`min(1, 0.5 + 0.1)`), not `0.55`. -/
theorem C3_counterexample :
    (runEvents [MetricsEvent.succ webrtcMethod 0]).metrics.successRate "webrtc" =
      some (3 / 5) ∧
    (3 : ℚ) / 5 ≠ 11 / 20 :=
  ⟨by with_unfolding_all rfl, by norm_num⟩

/-- C3 (amended): the update is additive-and-clamped, not an EMA:
`recordSuccess` sets `min(1, rate + 0.1)` and `recordFailure` sets
`max(0, rate - 0.1)`, initialized from 0.5 on first observation; from 0.5
one success yields 0.6 and one failure yields 0.4, and after arbitrarily
many recorded attempts in any order every stored successRate stays within
`[0, 1]`. -/
theorem C3_amended :
    ((runEvents [MetricsEvent.succ webrtcMethod 0]).metrics.successRate "webrtc" =
        some (3 / 5) ∧
      (runEvents [MetricsEvent.fail webrtcMethod "e" 0]).metrics.successRate "webrtc" =
        some (2 / 5)) ∧
    ∀ (evs : List MetricsEvent) (n : String) (r : ℚ),
      (runEvents evs).metrics.successRate n = some r → 0 ≤ r ∧ r ≤ 1 := by
  refine ⟨⟨by with_unfolding_all rfl, by with_unfolding_all rfl⟩, ?_⟩
  intro evs n r h
  exact foldl_rate_bounds evs initState
    (by intro n' r' h'; simp [initState, noRates] at h') n r h

/-- C3 (witness): the bound theorem applied to the state after one recorded
success. -/
theorem C3_witness : 0 ≤ (3 : ℚ) / 5 ∧ (3 : ℚ) / 5 ≤ 1 :=
  C3_amended.2 [MetricsEvent.succ webrtcMethod 0] "webrtc" (3 / 5)
    (by with_unfolding_all rfl)

/-- C4 (counterexample): `proxy` declares the `proxy_server` requirement,
yet with `proxy_server` unavailable it still appears in `selectOrder`'s
output — `checkMethodRequirements` never checks that capability, refuting
the claim quantified over all registered strategies and capability sets. -/
theorem C4_counterexample :
    Requirement.proxy_server ∈ proxyMethod.requirements ∧
    capsNoProxy.proxy_server = false ∧
    "proxy" ∈ (selectOrder capsNoProxy (some NetSpeed.medium) noRates).map Method.name :=
  of_decide_eq_true (by with_unfolding_all rfl)

/-- C4 (amended): the exclusion holds exactly for the two requirements the
`switch` enforces: for every registered strategy, capability set, network
condition and success-rate table, if the strategy requires `webrtc_support`
(resp. `websocket_support`) and that capability is false, the strategy is
absent from `selectOrder`'s output; the `proxy_server` and `ffmpeg_support`
requirements are not enforced. -/
theorem C4_amended :
    ∀ (caps : Caps) (net : Option NetSpeed) (sr : String → Option ℚ) (m : Method),
      m ∈ methods →
      ((Requirement.webrtc_support ∈ m.requirements ∧ caps.webrtc_support = false) ∨
        (Requirement.websocket_support ∈ m.requirements ∧ caps.websocket_support = false)) →
      m.name ∉ (selectOrder caps net sr).map Method.name := by
  intro caps net sr m hm hmiss hmem
  have hcheck : checkMethodRequirements caps m = false := by
    rcases hmiss with ⟨hreq, hcap⟩ | ⟨hreq, hcap⟩ <;>
      { cases h : checkMethodRequirements caps m
        · rfl
        · exfalso
          simp only [checkMethodRequirements] at h
          have hall := List.all_eq_true.mp h _ hreq
          simp [capOK, hcap] at hall }
  have hmem2 : m.name ∈
      (methods.filter fun x => checkMethodRequirements caps x).map Method.name :=
    (selectOrder_names_perm caps net sr).mem_iff.mp hmem
  obtain ⟨m', hm'f, hname⟩ := List.mem_map.mp hmem2
  have hm'm : m' ∈ methods := List.mem_of_mem_filter hm'f
  have hm'c : checkMethodRequirements caps m' = true := List.of_mem_filter hm'f
  rw [methods_name_inj m' m hm'm hm hname] at hm'c
  rw [hcheck] at hm'c
  exact Bool.false_ne_true hm'c

/-- C4 (witness): the amended theorem applied to `webrtc` under a
capability set without WebRTC support. -/
theorem C4_witness :
    webrtcMethod ∈ methods ∧
    "webrtc" ∉ (selectOrder capsNoWebrtc (some NetSpeed.medium) noRates).map Method.name :=
  ⟨List.mem_cons_self _ _,
    C4_amended capsNoWebrtc (some NetSpeed.medium) noRates webrtcMethod
      (List.mem_cons_self _ _)
      (Or.inl ⟨List.mem_cons_self _ _, rfl⟩)⟩

/-- C5 (counterexample): with `direct` at recorded rate 1 and the others
unseen, the code's order disagrees with sorting by the spec's normalized
score `0.7*successRate + 0.3*(maxPriorityValue - priority)/maxPriorityValue`:
the code yields `[webrtc, proxy, direct, transcode]` while the spec formula
yields `[direct, webrtc, proxy, transcode]` — the code's priority term is
`(5 - priority) * 0.3`, unnormalized. -/
theorem C5_counterexample :
    (selectOrder allCaps (some NetSpeed.medium) directOneRates).map Method.name =
      ["webrtc", "proxy", "direct", "transcode"] ∧
    (specSelectOrder directOneRates (availableMethods allCaps)).map Method.name =
      ["direct", "webrtc", "proxy", "transcode"] :=
  ⟨by with_unfolding_all rfl, by with_unfolding_all rfl⟩

/-- C5 (amended): under any network condition the final `selectOrder`
output is sorted descending by the code's score
`0.7*successRate + 0.3*(5 - priority)` — the priority term is NOT divided
by `maxPriorityValue` — with `successRate` read as 0.5 when unseen (or
recorded as exactly 0, per the `||` default); the output is a permutation
of the available strategies; and for equal success rates the
priority-1 strategy (`webrtc`) precedes the priority-2 one (`proxy`). -/
theorem C5_amended :
    (∀ (caps : Caps) (net : Option NetSpeed) (sr : String → Option ℚ),
      (selectOrder caps net sr).Pairwise fun a b => score sr b ≤ score sr a) ∧
    (∀ (caps : Caps) (net : Option NetSpeed) (sr : String → Option ℚ),
      ((selectOrder caps net sr).map Method.name).Perm
        ((availableMethods caps).map Method.name)) ∧
    (selectOrder allCaps (some NetSpeed.medium) halfRates).map Method.name =
      ["webrtc", "proxy", "transcode", "direct"] := by
  refine ⟨?_, ?_, by with_unfolding_all rfl⟩
  · intro caps net sr
    have htot : ∀ a b : Method, historyCmp sr a b = true ∨ historyCmp sr b a = true := by
      intro a b
      rcases le_total (score sr b) (score sr a) with h | h
      · exact Or.inl (by simp [historyCmp, h])
      · exact Or.inr (by simp [historyCmp, h])
    have htrans : ∀ a b c : Method, historyCmp sr a b = true →
        historyCmp sr b c = true → historyCmp sr a c = true := by
      intro a b c hab hbc
      simp only [historyCmp, decide_eq_true_eq] at hab hbc ⊢
      exact le_trans hbc hab
    have hpw := arraySort_pairwise (historyCmp sr) htot htrans
      (optimizeMethodsByNetwork net (availableMethods caps))
    exact hpw.imp (by intro a b h; simpa [historyCmp] using h)
  · intro caps net sr
    exact (selectOrder_names_perm caps net sr).trans
      (availableMethods_names_perm caps).symm

/-- C6 (code bug): on a successful attempt `executeWithFallback` does
record the success and return immediately (here: result 7, one traced
attempt, success rate 0.6 and one connection-time record for `webrtc`);
but in the claimed scenario where strategy A (`webrtc`, the selected head)
fails and strategy B would succeed on its first attempt, the call instead
escapes with a `ReferenceError` at A's very first failure: B is never
tried, B's result is not returned, and the metrics show no failure records
for A and no success record for B (state untouched). -/
theorem C6_theorem :
    ((executeWithFallback allCaps (some NetSpeed.medium) opAllOk initState).result =
        Except.ok 7 ∧
      (executeWithFallback allCaps (some NetSpeed.medium) opAllOk initState).trace =
        [("webrtc", 10000)] ∧
      (executeWithFallback allCaps (some NetSpeed.medium) opAllOk
          initState).state.metrics.successRate "webrtc" = some (3 / 5) ∧
      (executeWithFallback allCaps (some NetSpeed.medium) opAllOk
          initState).state.metrics.connectionTime = [{ method := "webrtc", time := 3 }]) ∧
    ((executeWithFallback allCaps (some NetSpeed.medium) opWebrtcFails initState).result =
        Except.error ExecError.referenceError ∧
      (executeWithFallback allCaps (some NetSpeed.medium) opWebrtcFails initState).state =
        initState ∧
      (executeWithFallback allCaps (some NetSpeed.medium) opWebrtcFails initState).trace =
        [("webrtc", 10000)]) :=
  ⟨⟨by with_unfolding_all rfl, by with_unfolding_all rfl, by with_unfolding_all rfl,
      by with_unfolding_all rfl⟩,
    by with_unfolding_all rfl, by with_unfolding_all rfl, by with_unfolding_all rfl⟩

/-- C7 (counterexample): with every attempt failing (so every strategy
would exhaust its retries), `executeWithFallback` does not fail with an
`AggregateFailure` carrying one entry per attempted strategy — it escapes
with a `ReferenceError` after a single attempt, recording nothing. -/
theorem C7_counterexample :
    (executeWithFallback allCaps (some NetSpeed.medium) opAllFail initState).result =
      Except.error ExecError.referenceError ∧
    (executeWithFallback allCaps (some NetSpeed.medium) opAllFail initState).state =
      initState ∧
    (executeWithFallback allCaps (some NetSpeed.medium) opAllFail initState).trace =
      [("webrtc", 10000)] :=
  ⟨by with_unfolding_all rfl, by with_unfolding_all rfl, by with_unfolding_all rfl⟩

/-- C7 (amended): whenever the first attempt of the first strategy in the
plan fails its race (in particular whenever every strategy would exhaust
its retries without success), `executeWithFallback` surfaces the
`ReferenceError` from its `catch` block; the `'所有播放方案都失败了'` error —
which would carry only the last error's message, not per-strategy entries
with attempt counts — is unreachable in that case. -/
theorem C7_amended :
    ∀ (caps : Caps) (net : Option NetSpeed) (op : String → ℕ → AttemptBehaviour)
      (st : FallbackState) (sel m : Method) (rest : List Method) (e : String),
      selectBestMethod caps net st.metrics.successRate = some sel →
      methodsToTry caps sel.name = m :: rest →
      0 < m.retries →
      raceOutcome m.timeout (op m.name 0) = Except.error e →
      (executeWithFallback caps net op st).result =
        Except.error ExecError.referenceError := by
  intro caps net op st sel m rest e hsel hplan hret hrace
  obtain ⟨k, hk⟩ : ∃ k, m.retries = k + 1 := ⟨m.retries - 1, by omega⟩
  have hstep : attemptLoop (op m.name) m m.retries 0 st none [] =
      AttemptStep.thrown st [(m.name, m.timeout)] := by
    rw [hk]
    simp only [attemptLoop, hrace, List.nil_append]
  unfold executeWithFallback
  rw [hsel]
  show (methodLoop op (methodsToTry caps sel.name) st none []).result = _
  rw [hplan]
  simp only [methodLoop, hstep]

/-- C7 (witness): the amended theorem applied at a concrete all-failing
plan. -/
theorem C7_witness :
    (executeWithFallback allCaps (some NetSpeed.medium) opAllFail initState).result =
      Except.error ExecError.referenceError :=
  C7_amended allCaps (some NetSpeed.medium) opAllFail initState
    { webrtcMethod with timeout := 15000 } webrtcMethod
    [proxyMethod, transcodeMethod, directMethod] "fail"
    (by with_unfolding_all rfl) (by with_unfolding_all rfl) (by norm_num [webrtcMethod])
    (by with_unfolding_all rfl)

/-- C8 (code bug): once an attempt's timeout has fired — the operation's
own settlement arrives at or after `method.timeout` — the abandoned
operation's result is discarded whatever it is (in particular a late
success): it never causes a reported success for that attempt; but no
failure is recorded either: the engine escapes with the `catch` block's
`ReferenceError` before `recordFailure` runs, leaving the state
untouched. -/
theorem C8_theorem :
    ∀ a : AttemptBehaviour, webrtcMethod.timeout ≤ a.arrival →
      (executeWithFallback allCaps (some NetSpeed.medium) (fun _ _ => a)
          initState).result = Except.error ExecError.referenceError ∧
      (executeWithFallback allCaps (some NetSpeed.medium) (fun _ _ => a)
          initState).state = initState ∧
      (executeWithFallback allCaps (some NetSpeed.medium) (fun _ _ => a)
          initState).trace = [("webrtc", 10000)] := by
  intro a ha
  have hrace : raceOutcome webrtcMethod.timeout a = Except.error "播放超时" := by
    rw [raceOutcome, if_neg]
    exact not_lt.mpr ha
  have hstep : attemptLoop (fun _ => a) webrtcMethod
      webrtcMethod.retries 0 initState none [] =
      AttemptStep.thrown initState [(webrtcMethod.name, webrtcMethod.timeout)] := by
    show attemptLoop (fun _ => a) webrtcMethod 2 0 initState none [] = _
    simp only [attemptLoop, hrace, List.nil_append]
  have hsel : selectBestMethod allCaps (some NetSpeed.medium)
      initState.metrics.successRate = some { webrtcMethod with timeout := 15000 } := by
    with_unfolding_all rfl
  have hplan : methodsToTry allCaps "webrtc" =
      [webrtcMethod, proxyMethod, transcodeMethod, directMethod] := by
    with_unfolding_all rfl
  have hout : executeWithFallback allCaps (some NetSpeed.medium) (fun _ _ => a)
      initState =
      { result := Except.error ExecError.referenceError, state := initState,
        trace := [("webrtc", (10000 : ℚ))] } := by
    unfold executeWithFallback
    rw [hsel]
    show methodLoop (fun _ _ => a) (methodsToTry allCaps "webrtc") initState none [] = _
    rw [hplan]
    simp only [methodLoop, hstep]
    with_unfolding_all rfl
  exact ⟨by rw [hout], by rw [hout], by rw [hout]⟩

/-- C8 (witness): the single-resolution theorem applied to an operation
fulfilling successfully at 20000 ms, past the 10000 ms timeout. -/
theorem C8_witness :
    (executeWithFallback allCaps (some NetSpeed.medium)
        (fun _ _ => { arrival := 20000, result := Except.ok 7 }) initState).result =
      Except.error ExecError.referenceError ∧
    (executeWithFallback allCaps (some NetSpeed.medium)
        (fun _ _ => { arrival := 20000, result := Except.ok 7 }) initState).state =
      initState ∧
    (executeWithFallback allCaps (some NetSpeed.medium)
        (fun _ _ => { arrival := 20000, result := Except.ok 7 }) initState).trace =
      [("webrtc", 10000)] :=
  C8_theorem { arrival := 20000, result := Except.ok 7 } (by norm_num [webrtcMethod])

/-- C9: every attempt `executeWithFallback` makes races against the
strategy's original catalog timeout (every trace entry's timeout is a
catalog value) and draws its retry budget from the original catalog record
(every plan entry IS a catalog record); the per-call adjustments computed
during selection live only in the copies built by
`optimizeMethodsByNetwork` — e.g. under `slow`, timeouts ×2 and retries +1
— which the executor never consumes. -/
theorem C9_theorem :
    (∀ (caps : Caps) (net : Option NetSpeed) (op : String → ℕ → AttemptBehaviour)
      (st : FallbackState) (e : String × ℚ),
      e ∈ (executeWithFallback caps net op st).trace →
      ∃ m, m ∈ methods ∧ e = (m.name, m.timeout)) ∧
    (∀ (caps : Caps) (sel : String) (m : Method),
      m ∈ methodsToTry caps sel → m ∈ methods) ∧
    ((optimizeMethodsByNetwork (some NetSpeed.slow) (availableMethods allCaps)).map
      (fun m => (m.name, m.timeout, m.retries)) =
      [("direct", (40000 : ℚ), 2), ("proxy", 30000, 4), ("transcode", 60000, 3),
        ("webrtc", 20000, 3)]) := by
  refine ⟨?_, methodsToTry_subset, by with_unfolding_all rfl⟩
  intro caps net op st e he
  unfold executeWithFallback at he
  cases hsel : selectBestMethod caps net st.metrics.successRate with
  | none => rw [hsel] at he; simp at he
  | some sel =>
    rw [hsel] at he
    change e ∈ (methodLoop op (methodsToTry caps sel.name) st none []).trace at he
    obtain ⟨s, hs, hse⟩ := methodLoop_trace_sub op (methodsToTry caps sel.name) st none []
    rw [hs] at he
    simp only [List.nil_append] at he
    obtain ⟨m, hm, he'⟩ := hse e he
    exact ⟨m, methodsToTry_subset caps sel.name m hm, he'⟩

/-- C9 (witness): the trace theorem applied to a concrete successful run,
whose single attempt raced the catalog timeout 10000 of `webrtc`. -/
theorem C9_witness :
    ∃ m, m ∈ methods ∧ ("webrtc", (10000 : ℚ)) = (m.name, m.timeout) :=
  C9_theorem.1 allCaps (some NetSpeed.medium) opAllOk initState ("webrtc", (10000 : ℚ))
    (by
      have h : (executeWithFallback allCaps (some NetSpeed.medium) opAllOk
          initState).trace = [("webrtc", (10000 : ℚ))] := by with_unfolding_all rfl
      rw [h]
      exact List.mem_cons_self _ _)

/-- C10: only failed attempts are appended to the bounded attempt history
(every history entry has `success = false`; successes go to the
connection-time list), so the derived error rate — failures among the most
recent 20 history records divided by their count, 0 on an empty history —
equals exactly 1 after every sequence of recorded attempts that leaves the
history non-empty. -/
theorem C10_theorem :
    ∀ evs : List MetricsEvent,
      ((runEvents evs).attemptHistory.all fun r => !r.success) = true ∧
      (runEvents evs).metrics.errorRate =
        (if (runEvents evs).attemptHistory = [] then 0 else 1) := by
  intro evs
  obtain ⟨h1, h2⟩ := foldl_hist_inv evs initState
    (by intro r hr; simp [initState] at hr) (by simp [initState])
  refine ⟨?_, h2⟩
  rw [List.all_eq_true]
  intro r hr
  simp [h1 r hr]

end TeslaFallback
